import Mathlib

/-!
Shallow embedding of the core of the `bj5` platformer: the tile animation
clock (`src/components.rs`), the epoch state machine, projector and teleport
crossing handler (`src/main.rs`), and the world-build epoch-range derivation,
teleporter graph resolution and asset-event batching (`src/tiled.rs`).
Machine integers (`u32`, `i32`, `usize`) are modelled as `Nat`/`Int`; the
claims verified here never exercise wrap-around. The `f32` coordinates of
transforms are modelled as `Int`: the verified claims only involve exact
assignments, sign tests and comparisons, which the embedding preserves.
-/

/-! ## Data model (src/components.rs) -/

/-- An animation frame, from `tiled::Frame` as used by `TileAnimation`
(components.rs:106-111): a tile id and a duration in milliseconds. -/
structure Frame where
  tile_id : Nat
  duration : Nat
deriving DecidableEq

/-- The `TileAnimation` component (components.rs:106-111). -/
structure TileAnimation where
  frames : List Frame
  index : Nat
  clock : Nat
deriving DecidableEq

/-- The global `Epoch` singleton component (components.rs:144-149). -/
structure Epoch where
  min : Int
  max : Int
  cur : Int
deriving DecidableEq

/-- The per-tile `EpochSprite` component (components.rs:151-162); `base` is a
`usize` in the source, modelled as `Nat`. -/
structure EpochSprite where
  base : Nat
  delta : Int
  first : Int
  last : Int
deriving DecidableEq

/-! ## Tile animation clock (components.rs:126-141)

`TileAnimation::tick` first adds `dt` to the clock, then runs a guarded
`if clock > dur` followed by a `while clock > dur` loop; together these are
exactly one while loop that subtracts the active frame duration and advances
the index circularly while the clock exceeds the active frame duration. The
Rust loop can diverge (all durations zero), so the embedding is fuel-indexed:
`none` models a run that has not finished within `fuel` iterations, and
divergence is `∀ fuel, tickLoop ... = none`. -/

/-- Indexing `self.frames[i]`; out-of-range (a panic in Rust) is defaulted,
and every theorem below carries the in-range precondition instead. -/
def frameAt (frames : List Frame) (i : Nat) : Frame :=
  (frames.get? i).getD ⟨0, 0⟩

/-- Duration of frame `i`. -/
def durAt (frames : List Frame) (i : Nat) : Nat :=
  (frameAt frames i).duration

/-- The combined `if`/`while` loop of `TileAnimation::tick`
(components.rs:129-139), fuel-indexed. State is `(clock, index)`. -/
def tickLoop (frames : List Frame) (fuel clock index : Nat) : Option (Nat × Nat) :=
  match fuel with
  | 0 => none
  | f + 1 =>
    if durAt frames index < clock then
      tickLoop frames f (clock - durAt frames index) ((index + 1) % frames.length)
    else
      some (clock, index)

/-- `TileAnimation::tick(dt)` (components.rs:126-141): add `dt` to the clock,
run the loop, return the updated animation and the active frame's tile id. -/
def tick (a : TileAnimation) (dt : Nat) (fuel : Nat) : Option (TileAnimation × Nat) :=
  match tickLoop a.frames fuel (a.clock + dt) a.index with
  | none => none
  | some (clock, index) =>
    some (⟨a.frames, index, clock⟩, (frameAt a.frames index).tile_id)

/-! ## Epoch state machine (main.rs:497-507) -/

/-- The epoch-change block at the end of the `teleport` system
(main.rs:497-507): `tp_dir < 0` (leftward-net crossing) increments `cur`
when below `max`; `tp_dir > 0` (rightward-net) decrements when above `min`. -/
def epochTransition (e : Epoch) (tpDir : Int) : Epoch :=
  if tpDir ≠ 0 then
    if tpDir < 0 ∧ e.cur < e.max then { e with cur := e.cur + 1 }
    else if 0 < tpDir ∧ e.min < e.cur then { e with cur := e.cur - 1 }
    else e
  else e

/-! ## Epoch projector (main.rs:684-726) -/

/-- The per-tile body of `apply_epoch` (main.rs:692-725): given the current
epoch and a tile's `EpochSprite`, current texture index and visibility,
return the new `(texture_index, visible)` pair. In the visible branch the
source computes `base as u32 + (tile_epoch - first) as u32`; the branch
condition makes `tile_epoch - first` non-negative, so the `i32 → u32` cast
is `Int.toNat`. In the invisible branch the texture index is not written. -/
def applyEpochTile (cur : Int) (s : EpochSprite) (tex : Nat) (vis : Bool) : Nat × Bool :=
  let tileEpoch := cur + s.delta
  if s.first ≤ tileEpoch ∧ tileEpoch ≤ s.last then
    (s.base + (tileEpoch - s.first).toNat, true)
  else
    (tex, false)

/-! ## World-build epoch range derivation (tiled.rs:432-459, 276-279, 683-687) -/

/-- The `epoch` / `epoch_min` / `epoch_max` integer properties of one
epoch-bearing tile, as read by `get_int_prop` (tiled.rs:418-420); the claim
only concerns tiles whose `epoch` property is present. -/
structure EpochProps where
  epoch : Int
  epoch_min : Option Int
  epoch_max : Option Int

/-- Rust `i32::clamp(lo, hi)` (`lo ≤ hi` is asserted by Rust and holds at the
call site): below `lo` gives `lo`, above `hi` gives `hi`, otherwise itself. -/
def clampI (v lo hi : Int) : Int :=
  if v < lo then lo else if hi < v then hi else v

/-- `min` of tiled.rs:433-435: `min0.min(max0)` with `min0 = epoch_min ?? epoch`,
`max0 = epoch_max ?? epoch`. -/
def tileMin (p : EpochProps) : Int :=
  min (p.epoch_min.getD p.epoch) (p.epoch_max.getD p.epoch)

/-- `max` of tiled.rs:434-436: `max0.max(min0)`. -/
def tileMax (p : EpochProps) : Int :=
  max (p.epoch_max.getD p.epoch) (p.epoch_min.getD p.epoch)

/-- The `EpochSprite` built at tiled.rs:442-448: the tile's `epoch` is clamped
into `[min, max]` and becomes `delta`; `base = tile_id - (epoch - min)`
(a `usize` subtraction, modelled as truncated `Nat` subtraction). -/
def mkEpochSprite (tileId : Nat) (p : EpochProps) : EpochSprite :=
  let mn := tileMin p
  let mx := tileMax p
  let e := clampI p.epoch mn mx
  ⟨tileId - (e - mn).toNat, e, mn, mx⟩

/-- The per-tile fold of the running global bound (tiled.rs:438-439):
`min_epoch = min(min_epoch, min - epoch)` and
`max_epoch = max(max_epoch, max - epoch)`, using the unclamped `epoch`. -/
def foldEpochBounds (g : Int × Int) (p : EpochProps) : Int × Int :=
  (min g.1 (tileMin p - p.epoch), max g.2 (tileMax p - p.epoch))

/-- The global epoch bound after folding every epoch-bearing tile, started
from the previous `Epoch` resource's `(min, max)` (tiled.rs:276-278) and
written back at tiled.rs:683-687. -/
def globalEpochBounds (g0 : Int × Int) (tiles : List EpochProps) : Int × Int :=
  tiles.foldl foldEpochBounds g0

/-! ## Teleporter graph resolution (tiled.rs:583-679) -/

/-- One row of the pairing table `tp_map` (tiled.rs:628):
object id, spawned entity, declared destination object id. -/
structure TpEntry where
  id : Nat
  entity : Nat
  dst : Nat
deriving DecidableEq

/-- Lookup `tp_map.get(dst_id)` (tiled.rs:667), the table modelled as an
association list with unique ids (`tp_map` is a `HashMap` keyed by id). -/
def tpLookup (tbl : List TpEntry) (i : Nat) : Option TpEntry :=
  tbl.find? fun e => e.id == i

/-- The body of the resolution loop (tiled.rs:666-679) for one entry:
`none` models the `assert_eq!(*src_id, *id)` panic when the destination
exists but declares a different partner; `some none` models the dangling
destination (warning logged, no link); `some (some (a, b))` models inserting
`Teleporter::new` linking entity `a` to entity `b`. -/
def resolveEntry (tbl : List TpEntry) (e : TpEntry) : Option (Option (Nat × Nat)) :=
  match tpLookup tbl e.dst with
  | some d => if d.dst = e.id then some (some (e.entity, d.entity)) else none
  | none => some none

/-- The resolution loop over the entries of `l` (with lookups in `tbl`):
`none` propagates a panic, otherwise collects the inserted links. -/
def resolveRun (tbl : List TpEntry) : List TpEntry → Option (List (Nat × Nat))
  | [] => some []
  | e :: rest =>
    match resolveEntry tbl e with
    | none => none
    | some none => resolveRun tbl rest
    | some (some l) => (resolveRun tbl rest).map (l :: ·)

/-- Full teleporter graph resolution (tiled.rs:664-679) over the pairing
table. -/
def resolveTeleporters (tbl : List TpEntry) : Option (List (Nat × Nat)) :=
  resolveRun tbl tbl

/-! ## Teleport crossing detection (main.rs:412-508) -/

/-- The data the `teleport` system reads about a teleporter entity it can
`q_teleporters.get`: its transform translation `(x, y)` and, when the
partner lookup `q_teleporters.get(tp1.2.target)` succeeds, the partner's
translation. `partner = none` models a failed partner lookup. -/
structure TeleporterView where
  pos : Int × Int
  partner : Option (Int × Int)
deriving DecidableEq

/-- A sensor collision event between the player and a teleporter entity, as
filtered by the `teleport` system (main.rs:425-456). -/
inductive CollisionEv
  | started (tp : TeleporterView)
  | stopped (tp : TeleporterView)
deriving DecidableEq

/-- The mutable state the `teleport` system's event loop threads through:
the player translation `(x, y)`, `player.teleporter_side`, and the local
`tp_dir` (initialised to 0 at main.rs:422). -/
structure TeleportState where
  playerPos : Int × Int
  teleporter_side : Int
  tpDir : Int
deriving DecidableEq

/-- One iteration of the event loop of `teleport` (main.rs:423-495).
Start: record the entry side (main.rs:439-440). Stop: compute the exit
offset `delta`; a same-side exit resets the side and does nothing else
(main.rs:462-465); otherwise, when the partner lookup succeeds, move the
player to `partner + delta` and set `tp_dir` from the partners' x order
(main.rs:467-489). -/
def stepEvent (s : TeleportState) (ev : CollisionEv) : TeleportState :=
  match ev with
  | .started tp => { s with teleporter_side := s.playerPos.1 - tp.pos.1 }
  | .stopped tp =>
    let d1 := s.playerPos.1 - tp.pos.1
    let d2 := s.playerPos.2 - tp.pos.2
    if d1 * s.teleporter_side ≥ 0 then
      { s with teleporter_side := 0 }
    else
      match tp.partner with
      | none => s
      | some q =>
        { s with
          playerPos := (q.1 + d1, q.2 + d2),
          tpDir := if q.1 > tp.pos.1 then 1 else -1 }

/-- The whole `teleport` system for one tick (main.rs:412-508): fold the
batch of events, then apply the single epoch-change block once with the
final `tp_dir`. -/
def teleport (playerPos : Int × Int) (side : Int) (events : List CollisionEv)
    (e : Epoch) : TeleportState × Epoch :=
  let s := events.foldl stepEvent ⟨playerPos, side, 0⟩
  (s, epochTransition e s.tpDir)

/-! ## Asset event batching (tiled.rs:250-269) -/

/-- An `AssetEvent<TiledMap>` as matched at tiled.rs:252-268; other variants
fall to the `_ => continue` arm and are omitted. -/
inductive AssetEv
  | added (id : Nat)
  | modified (id : Nat)
  | removed (id : Nat)
deriving DecidableEq

/-- The batching loop of `process_loaded_maps` (tiled.rs:250-269):
`Added`/`Modified` push the id; `Removed` runs
`changed_maps.retain(|changed_handle| changed_handle == id)`, which keeps
exactly the entries equal to the removed id. -/
def collectChangedMaps (events : List AssetEv) : List Nat :=
  events.foldl
    (fun acc ev =>
      match ev with
      | .added i => acc ++ [i]
      | .modified i => acc ++ [i]
      | .removed i => acc.filter fun h => h == i)
    []

/-! ## Claim theorems -/

/-- C2: for every `Epoch` state with `min ≤ cur ≤ max`, a leftward-net
crossing (`tp_dir < 0`) increments `cur` by exactly 1 unless `cur = max`
(then unchanged); a rightward-net crossing (`tp_dir > 0`) decrements by
exactly 1 unless `cur = min`; `min` and `max` are never modified. -/
theorem c2_epoch_transition (e : Epoch) (h1 : e.min ≤ e.cur) (h2 : e.cur ≤ e.max) :
    (∀ d : Int, d < 0 →
      (epochTransition e d).cur = if e.cur = e.max then e.cur else e.cur + 1) ∧
    (∀ d : Int, 0 < d →
      (epochTransition e d).cur = if e.cur = e.min then e.cur else e.cur - 1) ∧
    (∀ d : Int, (epochTransition e d).min = e.min ∧ (epochTransition e d).max = e.max) := by
  refine ⟨?_, ?_, ?_⟩
  · intro d hd
    simp only [epochTransition]
    split_ifs <;> simp_all <;> omega
  · intro d hd
    simp only [epochTransition]
    split_ifs <;> simp_all <;> omega
  · intro d
    simp only [epochTransition]
    split_ifs <;> simp_all

/-- C2 witness: at `min = -1, max = 2, cur = 2`, a leftward crossing is a
no-op at the boundary and a rightward crossing decrements. -/
theorem c2_witness :
    (epochTransition ⟨-1, 2, 2⟩ (-1)).cur = 2 ∧ (epochTransition ⟨-1, 2, 2⟩ 1).cur = 1 := by
  have h := c2_epoch_transition ⟨-1, 2, 2⟩ (by norm_num) (by norm_num)
  refine ⟨?_, ?_⟩
  · rw [h.1 (-1) (by norm_num)]; norm_num
  · rw [h.2.1 1 (by norm_num)]; norm_num

/-- C3: for every tile with an `EpochSprite` and every current epoch `cur`,
the projector body sets the tile visible iff `first ≤ cur + delta ≤ last`,
and when visible sets the texture index to `base + ((cur + delta) - first)`;
for `(base = 10, delta = 0, first = -1, last = 1)` the tile is visible
exactly for `cur ∈ {-1, 0, 1}` and the texture index at `cur = 1` is 12. -/
theorem c3_apply_epoch (cur : Int) (s : EpochSprite) (tex : Nat) (vis : Bool) :
    ((applyEpochTile cur s tex vis).2 = true ↔
      s.first ≤ cur + s.delta ∧ cur + s.delta ≤ s.last) ∧
    (s.first ≤ cur + s.delta → cur + s.delta ≤ s.last →
      ((applyEpochTile cur s tex vis).1 : Int) = s.base + (cur + s.delta - s.first)) ∧
    (∀ c : Int,
      ((applyEpochTile c ⟨10, 0, -1, 1⟩ tex vis).2 = true ↔ c = -1 ∨ c = 0 ∨ c = 1)) ∧
    (applyEpochTile 1 ⟨10, 0, -1, 1⟩ tex vis).1 = 12 := by
  refine ⟨?_, ?_, ?_, rfl⟩
  · simp only [applyEpochTile]
    split_ifs with h
    · simpa using h
    · simpa using h
  · intro ha hb
    simp only [applyEpochTile]
    rw [if_pos ⟨ha, hb⟩]
    push_cast
    rw [Int.toNat_of_nonneg (by omega)]
  · intro c
    simp only [applyEpochTile]
    split_ifs with h <;> simp only [true_iff, false_iff, iff_true, iff_false] <;> simp at h <;> omega

/-- C3 witness: at `cur = 1` and `(base = 10, delta = 0, first = -1, last = 1)`
the tile is visible with texture index 12. -/
theorem c3_witness :
    (applyEpochTile 1 ⟨10, 0, -1, 1⟩ 0 false).1 = 12 ∧
    (applyEpochTile 1 ⟨10, 0, -1, 1⟩ 0 false).2 = true := by
  have h := c3_apply_epoch 1 ⟨10, 0, -1, 1⟩ 0 false
  exact ⟨h.2.2.2, (h.2.2.1 1).mpr (by norm_num)⟩

/-- C6: on a through-crossing (exit offset of opposite sign to the recorded
entry side), if the crossed teleporter has a linked partner the player's new
position is `partner + delta` on both axes; if the partner lookup fails, the
player position and the epoch are unchanged (and the handler is total, so no
crash occurs). -/
theorem c6_through_crossing (p : Int × Int) (side : Int) (tp : TeleporterView)
    (e : Epoch) (h : (p.1 - tp.pos.1) * side < 0) :
    (∀ q, tp.partner = some q →
      (stepEvent ⟨p, side, 0⟩ (CollisionEv.stopped tp)).playerPos
        = (q.1 + (p.1 - tp.pos.1), q.2 + (p.2 - tp.pos.2))) ∧
    (tp.partner = none →
      teleport p side [CollisionEv.stopped tp] e = (⟨p, side, 0⟩, e)) := by
  have h' : ¬ (p.1 - tp.pos.1) * side ≥ 0 := not_le.mpr h
  constructor
  · intro q hq
    simp only [stepEvent]
    rw [if_neg h', hq]
  · intro hq
    simp only [teleport, List.foldl_cons, List.foldl_nil, stepEvent]
    rw [if_neg h', hq]
    simp [epochTransition]

/-- C6 witness: player at `(1, 5)` entered teleporter at `(3, 4)` from side
`+3`, exits at offset `(-2, 1)`; with a partner at `(10, 0)` the player lands
at `(8, 1)`; with no partner, state and epoch are unchanged. -/
theorem c6_witness :
    (stepEvent ⟨(1, 5), 3, 0⟩ (CollisionEv.stopped ⟨(3, 4), some (10, 0)⟩)).playerPos
      = (8, 1) ∧
    teleport (1, 5) 3 [CollisionEv.stopped ⟨(3, 4), none⟩] ⟨-1, 2, 0⟩
      = (⟨(1, 5), 3, 0⟩, ⟨-1, 2, 0⟩) := by
  constructor
  · exact (c6_through_crossing (1, 5) 3 ⟨(3, 4), some (10, 0)⟩ ⟨-1, 2, 0⟩
      (by norm_num)).1 (10, 0) rfl
  · exact (c6_through_crossing (1, 5) 3 ⟨(3, 4), none⟩ ⟨-1, 2, 0⟩
      (by norm_num)).2 rfl

/-- C7: within one tick's batch of collision events, the epoch-change block
runs once with the final `tp_dir`, so the epoch `cur` moves by at most 1 in
total no matter how many stop events resolved to crossings, stays within
`[min, max]`, and `min`/`max` are untouched. -/
theorem c7_single_transition (p : Int × Int) (side : Int)
    (events : List CollisionEv) (e : Epoch)
    (h1 : e.min ≤ e.cur) (h2 : e.cur ≤ e.max) :
    ((teleport p side events e).2.cur = e.cur ∨
     (teleport p side events e).2.cur = e.cur + 1 ∨
     (teleport p side events e).2.cur = e.cur - 1) ∧
    (teleport p side events e).2.min = e.min ∧
    (teleport p side events e).2.max = e.max ∧
    e.min ≤ (teleport p side events e).2.cur ∧
    (teleport p side events e).2.cur ≤ e.max := by
  have key : ∀ d : Int,
      ((epochTransition e d).cur = e.cur ∨
       (epochTransition e d).cur = e.cur + 1 ∨
       (epochTransition e d).cur = e.cur - 1) ∧
      (epochTransition e d).min = e.min ∧
      (epochTransition e d).max = e.max ∧
      e.min ≤ (epochTransition e d).cur ∧
      (epochTransition e d).cur ≤ e.max := by
    intro d
    simp only [epochTransition]
    split_ifs <;> simp_all <;> omega
  exact key _

/-- C7 witness: a batch with two through-crossings of the same leftward pair
still moves `cur` by at most one step. -/
theorem c7_witness :
    (teleport (4, 0) 3 [CollisionEv.stopped ⟨(6, 0), some (20, 0)⟩,
        CollisionEv.stopped ⟨(6, 0), some (20, 0)⟩] ⟨-2, 2, 0⟩).2.cur = 0 ∨
    (teleport (4, 0) 3 [CollisionEv.stopped ⟨(6, 0), some (20, 0)⟩,
        CollisionEv.stopped ⟨(6, 0), some (20, 0)⟩] ⟨-2, 2, 0⟩).2.cur = 0 + 1 ∨
    (teleport (4, 0) 3 [CollisionEv.stopped ⟨(6, 0), some (20, 0)⟩,
        CollisionEv.stopped ⟨(6, 0), some (20, 0)⟩] ⟨-2, 2, 0⟩).2.cur = 0 - 1 :=
  (c7_single_transition (4, 0) 3 [CollisionEv.stopped ⟨(6, 0), some (20, 0)⟩,
      CollisionEv.stopped ⟨(6, 0), some (20, 0)⟩] ⟨-2, 2, 0⟩
    (by norm_num) (by norm_num)).1

/-- C8: the claim says a `Removed` event cancels the pending rebuild of that
same document and preserves the others; the source's
`changed_maps.retain(|changed_handle| changed_handle == id)` (tiled.rs:265)
does the opposite of its own comment ("ignore the modification" of the
removed map): it keeps the removed document and drops every other pending
rebuild. On the batch `[Modified 1, Modified 2, Removed 1]` the code yields
`[1]` where the claim (and the comment) demand `[2]`. -/
theorem c8_retain_bug :
    collectChangedMaps [AssetEv.modified 1, AssetEv.modified 2, AssetEv.removed 1]
      = [1] := by
  rfl

/-- C9 counterexample: a genuine through-crossing (entry side `+3`, exit
offset `-2`, partner present) teleports the player but leaves
`teleporter_side` at its entry value `3` instead of resetting it to 0 — the
reset at main.rs:463 only runs in the same-side branch. -/
theorem c9_counterexample :
    (stepEvent ⟨(1, 0), 3, 0⟩ (CollisionEv.stopped ⟨(3, 0), some (10, 0)⟩)).playerPos
      = (8, 0) ∧
    (stepEvent ⟨(1, 0), 3, 0⟩ (CollisionEv.stopped ⟨(3, 0), some (10, 0)⟩)).teleporter_side
      ≠ 0 := by
  constructor
  · rfl
  · decide

/-- C9 amended: after the handler processes an overlap-end event with a
teleporter, `teleporter_side` is reset to 0 exactly when the exit was a
same-side re-entry (`delta.x * side ≥ 0`); on a through-crossing (with or
without a linked partner) it keeps its previous value. -/
theorem c9_amended_thm (s : TeleportState) (tp : TeleporterView) :
    ((s.playerPos.1 - tp.pos.1) * s.teleporter_side ≥ 0 →
      (stepEvent s (CollisionEv.stopped tp)).teleporter_side = 0) ∧
    ((s.playerPos.1 - tp.pos.1) * s.teleporter_side < 0 →
      (stepEvent s (CollisionEv.stopped tp)).teleporter_side = s.teleporter_side) := by
  constructor
  · intro h
    simp only [stepEvent]
    rw [if_pos h]
  · intro h
    simp only [stepEvent]
    rw [if_neg (not_le.mpr h)]
    cases htp : tp.partner <;> simp

/-- C9 amended witness: a same-side exit (side `+3`, exit offset `+1`) resets
the side to 0; the through-crossing of the counterexample keeps it at 3. -/
theorem c9_witness :
    (stepEvent ⟨(4, 0), 3, 0⟩ (CollisionEv.stopped ⟨(3, 0), some (10, 0)⟩)).teleporter_side
      = 0 ∧
    (stepEvent ⟨(1, 0), 3, 0⟩ (CollisionEv.stopped ⟨(9, 0), some (10, 0)⟩)).teleporter_side
      = 3 := by
  constructor
  · exact (c9_amended_thm ⟨(4, 0), 3, 0⟩ ⟨(3, 0), some (10, 0)⟩).1 (by norm_num)
  · exact (c9_amended_thm ⟨(1, 0), 3, 0⟩ ⟨(9, 0), some (10, 0)⟩).2 (by norm_num)

/-! ## C1: teleporter graph resolution -/

/-- Ids are unique in the pairing table, so two entries with the same id are
the same entry. -/
theorem tpEntry_id_inj {tbl : List TpEntry} (hnd : (tbl.map TpEntry.id).Nodup)
    {a b : TpEntry} (ha : a ∈ tbl) (hb : b ∈ tbl) (h : a.id = b.id) : a = b :=
  List.inj_on_of_nodup_map hnd ha hb h

/-- A successful lookup returns a member of the table with the queried id. -/
theorem tpLookup_mem {tbl : List TpEntry} {i : Nat} {d : TpEntry}
    (h : tpLookup tbl i = some d) : d ∈ tbl ∧ d.id = i := by
  refine ⟨List.mem_of_find?_eq_some h, ?_⟩
  have hbeq := List.find?_some h
  simpa using hbeq

/-- With unique ids, every member of the table is found by its own id. -/
theorem tpLookup_of_mem {tbl : List TpEntry} (hnd : (tbl.map TpEntry.id).Nodup)
    {d : TpEntry} (hd : d ∈ tbl) : tpLookup tbl d.id = some d := by
  cases h : tpLookup tbl d.id with
  | none =>
    rw [tpLookup, List.find?_eq_none] at h
    exact absurd (by simp) (h d hd)
  | some d2 =>
    obtain ⟨hmem, hid⟩ := tpLookup_mem h
    rw [tpEntry_id_inj hnd hmem hd hid]

/-- The loop body panics on entry `e` exactly when its destination exists in
the table but declares a different partner. -/
theorem resolveEntry_none_iff {tbl : List TpEntry}
    (hnd : (tbl.map TpEntry.id).Nodup) (e : TpEntry) :
    resolveEntry tbl e = none ↔ ∃ d ∈ tbl, e.dst = d.id ∧ d.dst ≠ e.id := by
  cases h : tpLookup tbl e.dst with
  | none =>
    simp only [resolveEntry, h, reduceCtorEq, false_iff, not_exists]
    rintro d ⟨hd, hdst, hne⟩
    have hl := tpLookup_of_mem hnd hd
    rw [← hdst, h] at hl
    cases hl
  | some d =>
    obtain ⟨hmem, hid⟩ := tpLookup_mem h
    simp only [resolveEntry, h]
    split_ifs with hdd
    · simp only [reduceCtorEq, false_iff, not_exists]
      rintro d2 ⟨hd2, hdst2, hne2⟩
      have : d2 = d := tpEntry_id_inj hnd hd2 hmem (by rw [← hdst2, hid])
      subst this
      exact hne2 hdd
    · simp only [true_iff]
      exact ⟨d, hmem, hid.symm, hdd⟩

/-- The loop body inserts link `(a, b)` on entry `e` exactly when `e`
reciprocally pairs with a table member `d` and `(a, b)` are their entities. -/
theorem resolveEntry_link_iff {tbl : List TpEntry}
    (hnd : (tbl.map TpEntry.id).Nodup) (e : TpEntry) (a b : Nat) :
    resolveEntry tbl e = some (some (a, b)) ↔
      ∃ d ∈ tbl, e.dst = d.id ∧ d.dst = e.id ∧ a = e.entity ∧ b = d.entity := by
  cases h : tpLookup tbl e.dst with
  | none =>
    simp only [resolveEntry, h, Option.some.injEq, reduceCtorEq, false_iff, not_exists]
    rintro d ⟨hd, hdst, _⟩
    have hl := tpLookup_of_mem hnd hd
    rw [← hdst, h] at hl
    cases hl
  | some d =>
    obtain ⟨hmem, hid⟩ := tpLookup_mem h
    simp only [resolveEntry, h]
    split_ifs with hdd
    · simp only [Option.some.injEq, Prod.mk.injEq]
      constructor
      · rintro ⟨ha, hb⟩
        exact ⟨d, hmem, hid.symm, hdd, ha.symm, hb.symm⟩
      · rintro ⟨d2, hd2, hdst2, _, ha, hb⟩
        have : d2 = d := tpEntry_id_inj hnd hd2 hmem (by rw [← hdst2, hid])
        subst this
        exact ⟨ha.symm, hb.symm⟩
    · simp only [reduceCtorEq, false_iff, not_exists]
      rintro d2 ⟨hd2, hdst2, hrec, _⟩
      have : d2 = d := tpEntry_id_inj hnd hd2 hmem (by rw [← hdst2, hid])
      subst this
      exact hdd hrec

/-- The resolution loop panics exactly when some processed entry panics. -/
theorem resolveRun_none_iff (tbl : List TpEntry) (l : List TpEntry) :
    resolveRun tbl l = none ↔ ∃ e ∈ l, resolveEntry tbl e = none := by
  induction l with
  | nil => simp [resolveRun]
  | cons e rest ih =>
    simp only [resolveRun]
    cases h : resolveEntry tbl e with
    | none => simp [h]
    | some o =>
      cases o with
      | none => simp [h, ih]
      | some lk =>
        rw [Option.map_eq_none']
        simp [h, ih]

/-- When the resolution loop finishes without a panic, the produced links are
exactly the links produced by the processed entries. -/
theorem resolveRun_mem_iff (tbl : List TpEntry) :
    ∀ (l : List TpEntry) (links : List (Nat × Nat)),
      resolveRun tbl l = some links → ∀ a b : Nat,
        ((a, b) ∈ links ↔ ∃ e ∈ l, resolveEntry tbl e = some (some (a, b))) := by
  intro l
  induction l with
  | nil =>
    intro links h a b
    simp only [resolveRun, Option.some.injEq] at h
    subst h
    simp
  | cons e rest ih =>
    intro links h a b
    simp only [resolveRun] at h
    cases hre : resolveEntry tbl e with
    | none => rw [hre] at h; cases h
    | some o =>
      cases o with
      | none =>
        rw [hre] at h
        rw [ih links h a b]
        simp only [List.mem_cons, exists_eq_or_imp, hre, Option.some.injEq,
          reduceCtorEq, false_or]
      | some lk =>
        rw [hre] at h
        cases hrr : resolveRun tbl rest with
        | none => rw [hrr] at h; cases h
        | some links2 =>
          rw [hrr] at h
          simp only [Option.map_some', Option.some.injEq] at h
          subst h
          have hih := ih links2 hrr a b
          simp only [List.mem_cons, exists_eq_or_imp, hre, Option.some.injEq]
          constructor
          · rintro (heq | hmem2)
            · exact Or.inl (by rw [← heq])
            · exact Or.inr (hih.mp hmem2)
          · rintro (heq | hex)
            · exact Or.inl heq.symm
            · exact Or.inr (hih.mpr hex)

/-- C1 counterexample: in the pairing table
`[(id 1, entity 10, dst 2), (id 2, entity 20, dst 3)]`, entry 1's declared
destination (object 2) exists but declares partner 3 ≠ 1 — a non-reciprocal
reference. The claim says such an entry is left with no Teleporter link, a
warning is logged, and resolution does not panic; the source instead hits
`assert_eq!(*src_id, *id)` (tiled.rs:668) and panics, modelled by
`resolveTeleporters` returning `none`. -/
theorem c1_counterexample :
    (∃ e ∈ [TpEntry.mk 1 10 2, TpEntry.mk 2 20 3],
      ∃ d ∈ [TpEntry.mk 1 10 2, TpEntry.mk 2 20 3], e.dst = d.id ∧ d.dst ≠ e.id) ∧
    resolveTeleporters [TpEntry.mk 1 10 2, TpEntry.mk 2 20 3] = none := by
  constructor
  · exact ⟨⟨1, 10, 2⟩, by simp, ⟨2, 20, 3⟩, by simp, rfl, by decide⟩
  · rfl

/-- C1 amended: over a pairing table with unique object ids, resolution
panics (the `assert_eq!` at tiled.rs:668) iff some entry's declared
destination exists but declares a different partner; when no such entry
exists resolution completes, the link set contains `(A.entity, B.entity)`
iff `A.dst = B.id` and `B.dst = A.id` (mutual declaration), and in
particular a dangling destination (absent from the table) yields no link
for its entry — only the logged warning — without a panic. -/
theorem c1_amended_thm (tbl : List TpEntry) (hnd : (tbl.map TpEntry.id).Nodup) :
    (resolveTeleporters tbl = none ↔
      ∃ e ∈ tbl, ∃ d ∈ tbl, e.dst = d.id ∧ d.dst ≠ e.id) ∧
    (∀ links, resolveTeleporters tbl = some links → ∀ a b : Nat,
      ((a, b) ∈ links ↔
        ∃ e ∈ tbl, ∃ d ∈ tbl, e.dst = d.id ∧ d.dst = e.id ∧ a = e.entity ∧ b = d.entity)) := by
  constructor
  · rw [resolveTeleporters, resolveRun_none_iff]
    simp only [resolveEntry_none_iff hnd]
  · intro links h a b
    rw [resolveTeleporters] at h
    rw [resolveRun_mem_iff tbl tbl links h a b]
    simp only [resolveEntry_link_iff hnd]

/-- C1 amended witness: on the table with reciprocal pair (1 ↔ 2) and the
dangling entry 5 (destination 9 absent), resolution does not panic and links
exactly entities 10 ↔ 20, leaving entity 50 unlinked. -/
theorem c1_witness :
    resolveTeleporters [TpEntry.mk 1 10 2, TpEntry.mk 2 20 1, TpEntry.mk 5 50 9]
      ≠ none ∧
    ((10, 20) ∈ [((10 : Nat), (20 : Nat)), (20, 10)] ↔
      ∃ e ∈ [TpEntry.mk 1 10 2, TpEntry.mk 2 20 1, TpEntry.mk 5 50 9],
      ∃ d ∈ [TpEntry.mk 1 10 2, TpEntry.mk 2 20 1, TpEntry.mk 5 50 9],
        e.dst = d.id ∧ d.dst = e.id ∧ 10 = e.entity ∧ 20 = d.entity) := by
  have h := c1_amended_thm [TpEntry.mk 1 10 2, TpEntry.mk 2 20 1, TpEntry.mk 5 50 9]
    (by decide)
  constructor
  · intro hn
    have hex := h.1.mp hn
    revert hex
    decide
  · exact h.2 [(10, 20), (20, 10)] rfl 10 20

/-! ## C5: epoch range derivation -/

/-- The running global bound only widens, and after the fold it covers every
folded tile's `(min - epoch, max - epoch)` contribution. -/
theorem globalEpochBounds_le (tiles : List EpochProps) :
    ∀ g0 : Int × Int,
      ((globalEpochBounds g0 tiles).1 ≤ g0.1 ∧ g0.2 ≤ (globalEpochBounds g0 tiles).2) ∧
      ∀ p ∈ tiles,
        (globalEpochBounds g0 tiles).1 ≤ tileMin p - p.epoch ∧
        tileMax p - p.epoch ≤ (globalEpochBounds g0 tiles).2 := by
  induction tiles with
  | nil =>
    intro g0
    simp [globalEpochBounds]
  | cons p rest ih =>
    intro g0
    have h := ih (foldEpochBounds g0 p)
    have hfold : globalEpochBounds g0 (p :: rest)
        = globalEpochBounds (foldEpochBounds g0 p) rest := by
      simp [globalEpochBounds]
    rw [hfold]
    refine ⟨⟨le_trans h.1.1 (min_le_left _ _), le_trans (le_max_left _ _) h.1.2⟩, ?_⟩
    intro q hq
    rcases List.mem_cons.mp hq with rfl | hq2
    · exact ⟨le_trans h.1.1 (min_le_right _ _), le_trans (le_max_right _ _) h.1.2⟩
    · exact h.2 q hq2

/-- C5: after World Build, every epoch-bearing tile's `EpochSprite` satisfies
`first ≤ delta ≤ last`, and the folded global bound satisfies
`min ≤ first - delta` and `last - delta ≤ max` for every such tile, for
every combination of `epoch` / `epoch_min` / `epoch_max` values — including
an `epoch` outside `[epoch_min, epoch_max]` — given that the fold starts
from a previous bound with `min ≤ 0 ≤ max` (the `Epoch` resource defaults to
`(0, 0)` and only ever widens). -/
theorem c5_epoch_bounds (g0 : Int × Int) (tiles : List EpochProps)
    (hmin0 : g0.1 ≤ 0) (hmax0 : 0 ≤ g0.2) (tileId : Nat) (p : EpochProps)
    (hp : p ∈ tiles) :
    ((mkEpochSprite tileId p).first ≤ (mkEpochSprite tileId p).delta ∧
     (mkEpochSprite tileId p).delta ≤ (mkEpochSprite tileId p).last) ∧
    (globalEpochBounds g0 tiles).1 ≤
      (mkEpochSprite tileId p).first - (mkEpochSprite tileId p).delta ∧
    (mkEpochSprite tileId p).last - (mkEpochSprite tileId p).delta ≤
      (globalEpochBounds g0 tiles).2 := by
  obtain ⟨⟨hg1, hg2⟩, hbound⟩ := globalEpochBounds_le tiles g0
  obtain ⟨hp1, hp2⟩ := hbound p hp
  have hfirst : (mkEpochSprite tileId p).first = tileMin p := rfl
  have hlast : (mkEpochSprite tileId p).last = tileMax p := rfl
  have hdelta : (mkEpochSprite tileId p).delta = clampI p.epoch (tileMin p) (tileMax p) := rfl
  have hmm : tileMin p ≤ tileMax p :=
    le_trans (min_le_left _ _) (le_max_right _ _)
  rw [hfirst, hlast, hdelta, clampI]
  split_ifs with hlo hhi <;> refine ⟨⟨?_, ?_⟩, ?_, ?_⟩ <;> omega

/-- C5 witness: one tile with `epoch = 5` outside `[epoch_min, epoch_max] =
[0, 2]`, folded from the default bound `(0, 0)`: the sprite is
`{base := 5, delta := 2, first := 0, last := 2}` and the global bound
`(-5, 0)` covers `first - delta = -2` and `last - delta = 0`. -/
theorem c5_witness :
    ((mkEpochSprite 7 ⟨5, some 0, some 2⟩).first
        ≤ (mkEpochSprite 7 ⟨5, some 0, some 2⟩).delta ∧
     (mkEpochSprite 7 ⟨5, some 0, some 2⟩).delta
        ≤ (mkEpochSprite 7 ⟨5, some 0, some 2⟩).last) ∧
    (globalEpochBounds (0, 0) [⟨5, some 0, some 2⟩]).1 ≤
      (mkEpochSprite 7 ⟨5, some 0, some 2⟩).first
        - (mkEpochSprite 7 ⟨5, some 0, some 2⟩).delta ∧
    (mkEpochSprite 7 ⟨5, some 0, some 2⟩).last
        - (mkEpochSprite 7 ⟨5, some 0, some 2⟩).delta ≤
      (globalEpochBounds (0, 0) [⟨5, some 0, some 2⟩]).2 :=
  c5_epoch_bounds (0, 0) [⟨5, some 0, some 2⟩] (by norm_num) (by norm_num) 7
    ⟨5, some 0, some 2⟩ (by simp)

/-! ## C4 and C10: tile animation clock -/

/-- When the loop stops, the index is in range and the clock no longer
exceeds the active frame duration. -/
theorem tickLoop_post (frames : List Frame) :
    ∀ (fuel clock index c i : Nat), index < frames.length →
      tickLoop frames fuel clock index = some (c, i) →
      i < frames.length ∧ c ≤ durAt frames i := by
  intro fuel
  induction fuel with
  | zero =>
    intro clock index c i hidx h
    simp [tickLoop] at h
  | succ f ih =>
    intro clock index c i hidx h
    simp only [tickLoop] at h
    by_cases hg : durAt frames index < clock
    · rw [if_pos hg] at h
      exact ih _ _ _ _ (Nat.mod_lt _ (by omega)) h
    · rw [if_neg hg] at h
      simp only [Option.some.injEq, Prod.mk.injEq] at h
      obtain ⟨rfl, rfl⟩ := h
      exact ⟨hidx, by omega⟩

/-- C4: for a non-empty frame list (in-range index), `tick` adds the elapsed
time to the clock then repeatedly consumes the active frame's duration while
exceeded, advancing the index circularly, and returns the active frame's
tile id: whenever it completes, the frames are untouched, the final index is
in range, the final clock does not exceed the active frame's duration, and
the returned id is the active frame's; when the added time does not exceed
the first frame's duration it only accumulates; and with frames
`[(5, 100), (6, 50)]`, `index = 0`, `clock = 0`, `tick 120` ends at
`index = 1`, `clock = 20` and returns tile id 6. -/
theorem c4_tick (a : TileAnimation) (dt fuel : Nat) (h : a.index < a.frames.length) :
    (∀ b tid, tick a dt fuel = some (b, tid) →
      b.frames = a.frames ∧ b.index < a.frames.length ∧
      b.clock ≤ durAt a.frames b.index ∧
      tid = (frameAt a.frames b.index).tile_id) ∧
    (0 < fuel → a.clock + dt ≤ durAt a.frames a.index →
      tick a dt fuel = some (⟨a.frames, a.index, a.clock + dt⟩,
        (frameAt a.frames a.index).tile_id)) ∧
    tick ⟨[⟨5, 100⟩, ⟨6, 50⟩], 0, 0⟩ 120 2
      = some (⟨[⟨5, 100⟩, ⟨6, 50⟩], 1, 20⟩, 6) := by
  refine ⟨?_, ?_, rfl⟩
  · intro b tid htk
    rw [tick] at htk
    cases htl : tickLoop a.frames fuel (a.clock + dt) a.index with
    | none => rw [htl] at htk; cases htk
    | some ci =>
      obtain ⟨c, i⟩ := ci
      rw [htl] at htk
      simp only [Option.some.injEq, Prod.mk.injEq] at htk
      obtain ⟨rfl, rfl⟩ := htk
      obtain ⟨hi, hc⟩ := tickLoop_post a.frames fuel (a.clock + dt) a.index c i h htl
      exact ⟨rfl, hi, hc, rfl⟩
  · intro hf hle
    obtain ⟨f, rfl⟩ : ∃ f, fuel = f + 1 := ⟨fuel - 1, by omega⟩
    rw [tick]
    simp only [tickLoop]
    rw [if_neg (by omega)]

/-- C4 witness: the concrete run of the claim, obtained from `c4_tick` at the
animation `{frames := [(5, 100), (6, 50)], index := 0, clock := 0}`. -/
theorem c4_witness :
    tick ⟨[⟨5, 100⟩, ⟨6, 50⟩], 0, 0⟩ 120 2
      = some (⟨[⟨5, 100⟩, ⟨6, 50⟩], 1, 20⟩, 6) :=
  (c4_tick ⟨[⟨5, 100⟩, ⟨6, 50⟩], 0, 0⟩ 120 2 (by norm_num)).2.2

/-- When every frame duration is zero and the clock is positive, the loop
guard never fails: `tickLoop` runs out of any fuel, i.e. the Rust `while`
never terminates. -/
theorem tickLoop_zero_dur (frames : List Frame)
    (hz : ∀ f ∈ frames, f.duration = 0) :
    ∀ (fuel clock index : Nat), 0 < clock →
      tickLoop frames fuel clock index = none := by
  have hd : ∀ i, durAt frames i = 0 := by
    intro i
    rw [durAt, frameAt]
    cases hg : frames.get? i with
    | none => rfl
    | some fr =>
      simp only [Option.getD_some]
      exact hz fr (List.get?_mem hg)
  intro fuel
  induction fuel with
  | zero =>
    intro clock index hc
    rfl
  | succ f ih =>
    intro clock index hc
    simp only [tickLoop]
    rw [hd index, if_pos hc, Nat.sub_zero]
    exact ih clock _ hc

/-- One round of the termination argument: if some frame at circular
distance `k` from the current index has positive duration, then with fuel at
least `clock * len + k + 1` the loop finishes, assuming (as strong induction
hypothesis) that it finishes from any strictly smaller clock. Each iteration
either strictly decreases the clock (positive duration) or strictly
decreases the distance `k` (zero duration). -/
theorem tickLoop_term_aux (frames : List Frame) (clock : Nat)
    (IH : ∀ c, c < clock → ∀ index fuel, index < frames.length →
      (c + 1) * frames.length ≤ fuel →
      (tickLoop frames fuel c index).isSome = true) :
    ∀ (k index fuel : Nat), index < frames.length →
      0 < durAt frames ((index + k) % frames.length) →
      clock * frames.length + k + 1 ≤ fuel →
      (tickLoop frames fuel clock index).isSome = true := by
  intro k
  induction k with
  | zero =>
    intro index fuel hidx hdur hfuel
    obtain ⟨f, rfl⟩ : ∃ f, fuel = f + 1 := ⟨fuel - 1, by omega⟩
    simp only [tickLoop]
    by_cases hg : durAt frames index < clock
    · rw [if_pos hg]
      have hd0 : 0 < durAt frames index := by
        rwa [Nat.add_zero, Nat.mod_eq_of_lt hidx] at hdur
      refine IH (clock - durAt frames index) (by omega) _ f
        (Nat.mod_lt _ (by omega)) ?_
      have hmul : (clock - durAt frames index + 1) * frames.length
          ≤ clock * frames.length :=
        Nat.mul_le_mul_right _ (by omega)
      omega
    · rw [if_neg hg]
      rfl
  | succ k ihk =>
    intro index fuel hidx hdur hfuel
    obtain ⟨f, rfl⟩ : ∃ f, fuel = f + 1 := ⟨fuel - 1, by omega⟩
    simp only [tickLoop]
    by_cases hg : durAt frames index < clock
    · rw [if_pos hg]
      by_cases hd : 0 < durAt frames index
      · refine IH (clock - durAt frames index) (by omega) _ f
          (Nat.mod_lt _ (by omega)) ?_
        have hmul : (clock - durAt frames index + 1) * frames.length
            ≤ clock * frames.length :=
          Nat.mul_le_mul_right _ (by omega)
        omega
      · have hdz : durAt frames index = 0 := by omega
        rw [hdz, Nat.sub_zero]
        refine ihk ((index + 1) % frames.length) f (Nat.mod_lt _ (by omega)) ?_ (by omega)
        have hmod : ((index + 1) % frames.length + k) % frames.length
            = (index + (k + 1)) % frames.length := by
          rw [Nat.mod_add_mod]
          congr 1
          omega
        rw [hmod]
        exact hdur
    · rw [if_neg hg]
      rfl

/-- When at least one frame has positive duration, the loop finishes from
any start given fuel `(clock + 1) * len`. -/
theorem tickLoop_terminates (frames : List Frame)
    (hpos : ∃ j, j < frames.length ∧ 0 < durAt frames j) :
    ∀ (clock index fuel : Nat), index < frames.length →
      (clock + 1) * frames.length ≤ fuel →
      (tickLoop frames fuel clock index).isSome = true := by
  intro clock
  induction clock using Nat.strong_induction_on with
  | _ clock IH =>
    intro index fuel hidx hfuel
    obtain ⟨j, hj, hdj⟩ := hpos
    have hlen : 0 < frames.length := by omega
    have hklt : (j + frames.length - index) % frames.length < frames.length :=
      Nat.mod_lt _ hlen
    have hmod : (index + (j + frames.length - index) % frames.length) % frames.length
        = j := by
      rw [Nat.add_mod_mod]
      have hsum : index + (j + frames.length - index) = j + frames.length := by omega
      rw [hsum, Nat.add_mod_right, Nat.mod_eq_of_lt hj]
    have hexp : (clock + 1) * frames.length
        = clock * frames.length + frames.length := by ring
    exact tickLoop_term_aux frames clock IH
      ((j + frames.length - index) % frames.length) index fuel hidx
      (by rw [hmod]; exact hdj) (by omega)

/-- C10: `TileAnimation::tick` terminates for every elapsed-time input when
some frame of the (non-empty, in-range) frame list has strictly positive
duration — some fuel suffices; when every frame's duration is 0 and the
accumulated clock `clock + dt` is positive, the inner while loop never
terminates — no fuel suffices — so totality of `tick` needs the
positive-duration precondition the spec does not state. -/
theorem c10_termination (a : TileAnimation) (dt : Nat)
    (h : a.index < a.frames.length) :
    ((∃ j, j < a.frames.length ∧ 0 < durAt a.frames j) →
      ∃ fuel, (tick a dt fuel).isSome = true) ∧
    ((∀ f ∈ a.frames, f.duration = 0) → 0 < a.clock + dt →
      ∀ fuel, tick a dt fuel = none) := by
  constructor
  · intro hpos
    refine ⟨(a.clock + dt + 1) * a.frames.length, ?_⟩
    have hl := tickLoop_terminates a.frames hpos (a.clock + dt) a.index
      ((a.clock + dt + 1) * a.frames.length) h (le_refl _)
    rw [tick]
    cases htl : tickLoop a.frames ((a.clock + dt + 1) * a.frames.length)
        (a.clock + dt) a.index with
    | none => rw [htl] at hl; cases hl
    | some ci => rfl
  · intro hz hc fuel
    rw [tick, tickLoop_zero_dur a.frames hz fuel _ a.index hc]

/-- C10 witness: the two-frame animation of C4 (a positive duration exists)
terminates, while a one-frame animation with duration 0 and positive clock
never does, at any fuel shown here at fuel 5. -/
theorem c10_witness :
    (∃ fuel, (tick ⟨[⟨5, 100⟩, ⟨6, 50⟩], 0, 0⟩ 120 fuel).isSome = true) ∧
    tick ⟨[⟨7, 0⟩], 0, 1⟩ 0 5 = none := by
  constructor
  · exact (c10_termination ⟨[⟨5, 100⟩, ⟨6, 50⟩], 0, 0⟩ 120 (by norm_num)).1
      ⟨0, by norm_num, by norm_num [durAt, frameAt]⟩
  · exact (c10_termination ⟨[⟨7, 0⟩], 0, 1⟩ 0 (by norm_num)).2
      (by intro f hf; simp at hf; rw [hf]) (by norm_num) 5
